import Mathlib

/-!
Verification development for the manim-service diagram generators.

The repository builds animation scripts for an external renderer. Each
generator class exposes `generate_script`, which reads a parameter
dictionary and emits a script text; the layout and step-sequencing
mathematics lives in the emitted script bodies
(`animate_dns_resolution`, `create_binary_tree_visualization`,
`create_circular_flow`, `create_stack_visualization`,
`perform_stack_operations`, `create_array_visualization`,
`perform_array_operations`, `get_complexity_data`, ...).

This file gives a shallow embedding of those functions: real number
coordinates computed by the Python code are represented exactly as
rationals (the Python expressions only use +, -, *, / on decimal
literals), angles are recorded in units of pi (the code computes
`i * 2 * PI / num_steps - PI / 2`; we record the rational coefficient
of pi), and drawn scenes are records of the created visual objects.
-/

/-! ## DNS resolution generator
Embedding of `generators/dns_resolution_generator.py`,
method `animate_dns_resolution` (steps list and timing table). -/

/-- The five actors of the DNS diagram (`get_server_position` keys). -/
inductive DnsServer
  | client
  | cache
  | root
  | tld
  | auth
deriving DecidableEq, Repr

/-- One entry of the `steps` list built in `animate_dns_resolution`:
a `(from_server, to_server, message, step_id)` tuple. -/
structure DnsStep where
  from_server : DnsServer
  to_server : DnsServer
  message : String
  step_id : String
deriving DecidableEq, Repr

/-- Python `domain.split(".")[-1]` (the last dot-separated component). -/
def domain_tld (domain : String) : String :=
  (domain.splitOn ".").getLastD ""

/-- The canonical six-stage list `steps` built at the top of
`animate_dns_resolution` before the cache insertion. -/
def dns_base_steps (domain : String) : List DnsStep :=
  [ ⟨.client, .root, "Query: " ++ domain ++ "?", "1"⟩,
    ⟨.root, .client, "Try ." ++ domain_tld domain ++ " TLD server", "2"⟩,
    ⟨.client, .tld, "Query: " ++ domain ++ "?", "3"⟩,
    ⟨.tld, .client, "Try authoritative server", "4"⟩,
    ⟨.client, .auth, "Query: " ++ domain ++ "?", "5"⟩,
    ⟨.auth, .client, "Answer: IP address", "6"⟩ ]

/-- Python truthiness of a set object: a set is truthy exactly when it
is non-empty; the element values are irrelevant. -/
def py_set_truthy (elems : List Bool) : Bool := !elems.isEmpty

/-- The step list actually iterated by `animate_dns_resolution`. The
template spells the guard of `steps.insert(0, ("client", "cache", ...))`
as `if {{show_cache}}:` inside the f-string, so the emitted script reads
`if {show_cache}:` — a one-element set literal holding the runtime
boolean, not the boolean itself. A non-empty set is truthy in Python,
so the guard holds for both parameter values and the cache check is
prepended unconditionally. (Contrast `create_dns_infrastructure`, whose
single-braced `if {show_cache}:` interpolates the literal True or False
and is interpreted correctly.) -/
def animate_dns_resolution_steps (domain : String) (show_cache : Bool) :
    List DnsStep :=
  if py_set_truthy [show_cache] then
    ⟨.client, .cache, "Check cache for " ++ domain, "0"⟩ :: dns_base_steps domain
  else
    dns_base_steps domain

/-- The fixed timing table `timings = [1, 50, 30, 25, 20, 15, 10]`
(milliseconds) used in `animate_dns_resolution` and `get_step_timing`. -/
def dns_timings : List Nat := [1, 50, 30, 25, 20, 15, 10]

/-- `timings[step_num % len(timings)]`: the timing value assigned to the
step at position `step_num`. -/
def get_step_timing (step_num : Nat) : Nat :=
  dns_timings.getD (step_num % dns_timings.length) 0

/-! ## Binary tree layout
Embedding of `create_binary_tree_visualization` from
`generators/data_structure_generator.py`. -/

/-- `level = int(math.log2(i + 1))`. -/
def tree_level (i : Nat) : Nat := Nat.log2 (i + 1)

/-- `position_in_level = i - (2**level - 1)`. -/
def position_in_level (i : Nat) : Nat := i - (2 ^ tree_level i - 1)

/-- `x_offset = (position_in_level - (2**(level-1) - 0.5)) * (4 / 2**level)`.
The `2**(level-1)` factor uses an integer exponent that can be `-1`
in Python (value `0.5`); the integer power is modelled by `zpow` so the
value agrees with Python for every `i`, although the source only
evaluates this for `i ≥ 1`, where the level is at least 1. -/
def tree_x_offset (i : Nat) : ℚ :=
  ((position_in_level i : ℚ) - ((2 : ℚ) ^ ((tree_level i : ℤ) - 1) - 1/2))
    * (4 / (2 : ℚ) ^ tree_level i)

/-- `y_offset = -level * 1.5`. -/
def tree_y_offset (i : Nat) : ℚ := -(tree_level i : ℚ) * (3/2)

/-- `parent_index = (i - 1) // 2`. -/
def parent_index (i : Nat) : Nat := (i - 1) / 2

/-- One drawn tree node: its index in `data`, its value, and the x/y
offset it is shifted by (the root stays at the origin). -/
structure TreeNodeElem where
  idx : Nat
  val : Int
  x : ℚ
  y : ℚ
deriving DecidableEq, Repr

/-- The objects drawn by `create_binary_tree_visualization`: the node
groups, the parent-child edges (as index pairs), and whether the
properties text panel was reached (the method returns early on empty
data, drawing nothing). -/
structure TreeScene where
  nodes : List TreeNodeElem
  edges : List (Nat × Nat)
  props_shown : Bool
deriving DecidableEq, Repr

/-- `create_binary_tree_visualization(data, operations)`: early return on
empty data; otherwise the root at the origin, then for
`i in range(1, min(len(data), 7))` a node shifted by
`(tree_x_offset i, tree_y_offset i)` and an edge to `parent_index i`
whenever that index is already a key of the `nodes` dictionary
(which holds keys `0..i` at that point). -/
def create_binary_tree_visualization (data : List Int) : TreeScene :=
  if data.isEmpty then ⟨[], [], false⟩
  else
    let m := min data.length 7
    let child_nodes := (List.range' 1 (m - 1)).map fun i =>
      TreeNodeElem.mk i (data.getD i 0) (tree_x_offset i) (tree_y_offset i)
    let tree_edges := (List.range' 1 (m - 1)).filterMap fun i =>
      if parent_index i ∈ List.range (i + 1) then some (parent_index i, i)
      else none
    ⟨⟨0, data.getD 0 0, 0, 0⟩ :: child_nodes, tree_edges, true⟩

/-! ## Process flow generator (circular layout)
Embedding of `create_circular_flow` from
`generators/process_flow_generator.py`. -/

/-- A process-flow stage dictionary, restricted to the keys the circular
layout reads: `step.get("name", ...)` and `step.get("type", "process")`.
`none` models an absent key. -/
structure PFStepD where
  name : Option String
  type : Option String
deriving DecidableEq, Repr

instance : Inhabited PFStepD := ⟨⟨none, none⟩⟩

/-- `step.get("name", f"Step {i+1}")`. -/
def pf_step_name (s : PFStepD) (i : Nat) : String :=
  s.name.getD ("Step " ++ toString (i + 1))

/-- Python raises `ZeroDivisionError` on division by zero; every other
division returns the exact quotient. -/
inductive PyError
  | zeroDivision
deriving DecidableEq, Repr

/-- Division with Python semantics. -/
def pyDivQ (a b : ℚ) : Except PyError ℚ :=
  if b = 0 then .error .zeroDivision else .ok (a / b)

/-- The objects drawn by `create_circular_flow`: per stage an element
`(index, label, angle)` where `angle` is the coefficient of pi in
`i * 2 * PI / num_steps - PI / 2`, per stage a curved arrow
`(i, (i + 1) % num_steps)`, and the `Continuous Cycle` label (skipped
when the method returns early on empty input). -/
structure CircScene where
  elements : List (Nat × String × ℚ)
  arrows : List (Nat × Nat)
  cycle_label : Bool
deriving DecidableEq, Repr

/-- `create_circular_flow(steps_data, show_timing)`: early return on
empty input, otherwise one element and one wraparound arrow per stage.
Both the stage angle and the next-stage angle are computed by dividing
by `num_steps`, modelled with Python division semantics. -/
def create_circular_flow (steps_data : List PFStepD) :
    Except PyError CircScene :=
  if steps_data.isEmpty then .ok ⟨[], [], false⟩
  else
    let num_steps := steps_data.length
    (steps_data.enum.mapM (fun (p : Nat × PFStepD) =>
        (do
          let angle ← pyDivQ ((p.1 : ℚ) * 2) (num_steps : ℚ)
          let next_i := (p.1 + 1) % num_steps
          let _next_angle ← pyDivQ ((next_i : ℚ) * 2) (num_steps : ℚ)
          pure ((p.1, pf_step_name p.2 p.1, angle - 1/2), (p.1, next_i)) :
          Except PyError ((Nat × String × ℚ) × (Nat × Nat))))).map
      fun items => ⟨items.map Prod.fst, items.map Prod.snd, true⟩

/-! ## Stack layout and operations
Embedding of `create_stack_visualization` and `perform_stack_operations`
from `generators/data_structure_generator.py`. -/

/-- An operation dictionary of the data-structure family, restricted to
the keys the drivers read: `type`, `index`, `value`. `none` models an
absent key; the embedding covers requests whose `type` is a string,
whose `index` is an integer and whose `value` is an integer, which is
the shape every caller and test in the repository uses. -/
structure OpD where
  type : Option String
  index : Option Nat
  value : Option Int
deriving DecidableEq, Repr

/-- A drawn stack element group: its value text and the vertical shift
`DOWN * (2.5 - slot * 0.7)` it received. -/
structure StackElem where
  val : Int
  y : ℚ
deriving DecidableEq, Repr

/-- The vertical offset of the stack slot `i`:
`element.shift(DOWN * (2.5 - i * 0.7))`, with `DOWN` the negative
y direction. -/
def stack_y (i : Nat) : ℚ := -(5/2 - (7/10) * (i : ℚ))

/-- The element groups created by `create_stack_visualization` for the
initial data, bottom slot first. -/
def create_stack_elements (data : List Int) : List StackElem :=
  data.enum.map fun p => ⟨p.2, stack_y p.1⟩

/-- One iteration of the loop in `perform_stack_operations`:
`op_type = operation.get("type", "push")`,
`value = operation.get("value", 0)`; a push appends a new group shifted
by `DOWN * (2.5 - len(current_elements) * 0.7)`; a pop removes the last
group only when `current_elements` is non-empty. -/
def stack_step (cur : List StackElem) (op : OpD) : List StackElem :=
  let op_type := op.type.getD "push"
  let v := op.value.getD 0
  if op_type = "push" then cur ++ [⟨v, stack_y cur.length⟩]
  else if op_type = "pop" ∧ ¬cur.isEmpty then cur.dropLast
  else cur

/-- `perform_stack_operations(operations, elements, stack_base)`,
restricted to its effect on the list of surviving element groups. -/
def perform_stack_operations (elements : List StackElem)
    (operations : List OpD) : List StackElem :=
  operations.foldl stack_step elements

/-- The standard LIFO trace semantics on plain values, written from the
specification text (push appends, pop drops the most recent value, pop
on an empty stack is a no-op, unknown operation types do nothing). -/
def lifo_step (st : List Int) (op : OpD) : List Int :=
  let op_type := op.type.getD "push"
  if op_type = "push" then st ++ [op.value.getD 0]
  else if op_type = "pop" then st.dropLast
  else st

/-- LIFO evaluation of a whole trace. -/
def lifo_eval (init : List Int) (operations : List OpD) : List Int :=
  operations.foldl lifo_step init

/-! ## Array layout and operations
Embedding of `create_array_visualization`,
`perform_array_operations` and `get_complexity_data` from
`generators/data_structure_generator.py`. -/

/-- The minimal scene drawn by `create_generic_visualization(data)`:
a single fixed heading and the data rendered as text. -/
structure GenericScene where
  heading : String
  data_text : String
deriving DecidableEq, Repr

/-- `create_generic_visualization(data)`. -/
def create_generic_visualization (data : List Int) : GenericScene :=
  ⟨"Generic Data Structure", "Data: " ++ toString data⟩

/-! ## The `generate_script` boundary of the four generators

Each generator class reads its parameter dictionary with `.get` calls
and interpolates the extracted values (directly or through
`json.dumps`) into a fixed script template. To state the determinism
and frame claims we model the Python object store explicitly: a heap of
`PyVal` objects addressed by natural numbers, and each `generate_script`
as a function from heap and request address to the tuple of values the
emitted text interpolates, returned together with the heap after the
call. Ambient nondeterminism sources (a random source and a clock) are
collected in `Env` and handed to every generator; the source code never
consults either (its only imports are `typing` and `json`). -/

/-- A Python runtime value; containers hold heap addresses. -/
inductive PyVal
  | none
  | bool (b : Bool)
  | int (n : Int)
  | str (s : String)
  | list (elems : List Nat)
  | dict (entries : List (String × Nat))
deriving DecidableEq, Repr

/-- The object store: address `a` holds `heap.getD a .none`. -/
abbrev Heap := List PyVal

/-- Dereference an address. -/
def heap_get (h : Heap) (a : Nat) : PyVal := h.getD a .none

/-- Key lookup inside a dictionary object; `none` when the address does
not hold a dictionary or the key is absent. -/
def dict_lookup (h : Heap) (a : Nat) (key : String) : Option Nat :=
  match heap_get h a with
  | .dict entries => (entries.find? fun e => e.1 = key).map (·.2)
  | _ => none

/-- `d.get(key, default)` for a list of strings. -/
def py_get_str_list (h : Heap) (a : Nat) (key : String)
    (dflt : List String) : List String :=
  match dict_lookup h a key with
  | some va =>
    match heap_get h va with
    | .list elems => elems.map fun ea =>
        match heap_get h ea with
        | .str s => s
        | _ => ""
    | _ => dflt
  | none => dflt

/-- C1: the cache-disabled half of the claim fails on the code. Because
the emitted guard `if {show_cache}:` is an always-truthy one-element
set literal, the cache-check step is inserted for every request: with
caching disabled the sequence equals the caching-enabled one and has 7
steps with the client-to-cache cache-check step at ordinal 0. The
caching-enabled conjuncts of the claim do hold: 7 steps, cache check
first, and the timing value at ordinal 0 is the minimum of the values
the table assigns to the 7 ordinals. -/
theorem dns_cache_step_unconditional (domain : String) :
    animate_dns_resolution_steps domain false =
      animate_dns_resolution_steps domain true ∧
    (animate_dns_resolution_steps domain false).length = 7 ∧
    (animate_dns_resolution_steps domain false).head? =
      some ⟨.client, .cache, "Check cache for " ++ domain, "0"⟩ ∧
    (animate_dns_resolution_steps domain true).length = 7 ∧
    ((List.range 7).all fun i =>
      decide (get_step_timing 0 ≤ get_step_timing i)) = true := by
  refine ⟨rfl, ?_, ?_, ?_, by decide⟩
  · simp [animate_dns_resolution_steps, py_set_truthy, dns_base_steps]
  · simp [animate_dns_resolution_steps, py_set_truthy]
  · simp [animate_dns_resolution_steps, py_set_truthy, dns_base_steps]

/-- `mapM` over `Except` succeeds pointwise: if every element maps to a
success, the whole traversal returns the list of successes. -/
theorem mapM_ok_of_forall {α β : Type} {l : List α}
    {f : α → Except PyError β} {g : α → β}
    (hfg : ∀ x ∈ l, f x = .ok (g x)) : l.mapM f = .ok (l.map g) := by
  induction l with
  | nil => rfl
  | cons a t ih =>
    rw [List.mapM_cons, hfg a (List.mem_cons_self a t), ih fun x hx =>
      hfg x (List.mem_cons_of_mem a hx)]
    rfl

/-- On non-empty input, `create_circular_flow` succeeds and produces one
element and one wraparound arrow per stage. -/
theorem create_circular_flow_ok (steps_data : List PFStepD)
    (hne : ¬steps_data.isEmpty) :
    create_circular_flow steps_data = .ok
      ⟨steps_data.enum.map fun p =>
          (p.1, pf_step_name p.2 p.1,
            (p.1 : ℚ) * 2 / (steps_data.length : ℚ) - 1/2),
        steps_data.enum.map fun p => (p.1, (p.1 + 1) % steps_data.length),
        true⟩ := by
  have hq : (steps_data.length : ℚ) ≠ 0 := by
    simp only [ne_eq, Nat.cast_eq_zero, List.length_eq_zero]
    intro hnil
    exact hne (by simp [hnil])
  simp only [create_circular_flow, if_neg hne]
  rw [mapM_ok_of_forall (g := fun (p : Nat × PFStepD) =>
    ((p.1, pf_step_name p.2 p.1,
        (p.1 : ℚ) * 2 / (steps_data.length : ℚ) - 1/2),
      (p.1, (p.1 + 1) % steps_data.length)))]
  · simp [Except.map, List.map_map]
  · intro p _
    simp [pyDivQ, hq]
    rfl

/-- C2: every tree node with index `1 ≤ i < min(len(data), 7)` is laid
out at level `⌊log2(i+1)⌋` with position-in-level `i - (2^level - 1)`,
horizontal offset `(positionInLevel - (2^(level-1) - 0.5)) * (4 / 2^level)`,
vertical offset `-level * 1.5`, and is connected by an edge to the node
at parent index `⌊(i-1)/2⌋`. -/
theorem binary_tree_node_layout (data : List Int) (i : Nat)
    (h1 : 1 ≤ i) (h2 : i < min data.length 7) :
    (create_binary_tree_visualization data).nodes[i]? =
      some ⟨i, data.getD i 0,
        (((i - (2 ^ Nat.log2 (i + 1) - 1) : Nat) : ℚ) -
            ((2 : ℚ) ^ (Nat.log2 (i + 1) - 1 : Nat) - 1/2)) *
          (4 / (2 : ℚ) ^ Nat.log2 (i + 1)),
        -(Nat.log2 (i + 1) : ℚ) * (3/2)⟩ ∧
    ((i - 1) / 2, i) ∈ (create_binary_tree_visualization data).edges := by
  have hil : i < data.length := lt_of_lt_of_le h2 (min_le_left _ _)
  have hdne : ¬data.isEmpty := by
    cases data with
    | nil => simp at hil
    | cons a l => simp
  simp only [create_binary_tree_visualization, if_neg hdne]
  set m := min data.length 7 with hmdef
  obtain ⟨j, rfl⟩ : ∃ j, i = j + 1 := ⟨i - 1, by omega⟩
  constructor
  · rw [List.getElem?_cons_succ, List.getElem?_map,
      List.getElem?_range' 1 1 (by omega : j < m - 1)]
    have h11 : 1 + 1 * j = j + 1 := by omega
    rw [h11]
    have hL : 1 ≤ Nat.log2 (j + 1 + 1) := by
      rw [Nat.log2_eq_log_two]
      exact Nat.log_pos (by norm_num) (by omega)
    have hz : (2 : ℚ) ^ ((Nat.log2 (j + 1 + 1) : ℤ) - 1) =
        (2 : ℚ) ^ (Nat.log2 (j + 1 + 1) - 1 : Nat) := by
      rw [show ((Nat.log2 (j + 1 + 1) : ℤ) - 1) =
        ((Nat.log2 (j + 1 + 1) - 1 : Nat) : ℤ) by omega, zpow_natCast]
    simp only [Option.map_some']
    simp only [tree_x_offset, position_in_level, tree_level, tree_y_offset]
    rw [hz]
  · apply List.mem_filterMap.mpr
    refine ⟨j + 1, ?_, ?_⟩
    · rw [List.mem_range'_1]
      omega
    · rw [if_pos (List.mem_range.mpr
        (by simp only [parent_index]; omega : parent_index (j + 1) < j + 1 + 1))]
      rfl

/-- Witness for C2 at `data = [10, 20, 30]`, `i = 1`. -/
theorem binary_tree_node_layout_witness :
    1 ≤ 1 ∧ 1 < min ([10, 20, 30] : List Int).length 7 ∧
    ((create_binary_tree_visualization [10, 20, 30]).nodes[1]? =
      some ⟨1, ([10, 20, 30] : List Int).getD 1 0,
        (((1 - (2 ^ Nat.log2 (1 + 1) - 1) : Nat) : ℚ) -
            ((2 : ℚ) ^ (Nat.log2 (1 + 1) - 1 : Nat) - 1/2)) *
          (4 / (2 : ℚ) ^ Nat.log2 (1 + 1)),
        -(Nat.log2 (1 + 1) : ℚ) * (3/2)⟩ ∧
    ((1 - 1) / 2, 1) ∈ (create_binary_tree_visualization [10, 20, 30]).edges) :=
  ⟨by decide, by decide,
   binary_tree_node_layout [10, 20, 30] 1 (by decide) (by decide)⟩

/-- C3: a circular flow with `N ≥ 1` stages succeeds and places element
`i` at angle `i * 2π/N - π/2` (recorded as the coefficient of pi), with
one transition arrow per element targeting `(i+1) mod N`; in particular
the arrow of element `N-1` closes the cycle back to element 0. -/
theorem circular_flow_layout (steps_data : List PFStepD)
    (hcount : 1 ≤ steps_data.length) :
    ∃ sc, create_circular_flow steps_data = Except.ok sc ∧
      sc.elements.length = steps_data.length ∧
      (∀ i, i < steps_data.length →
        sc.elements[i]? = some (i, pf_step_name (steps_data.getD i default) i,
          (i : ℚ) * 2 / (steps_data.length : ℚ) - 1/2)) ∧
      (∀ i, i < steps_data.length →
        sc.arrows[i]? = some (i, (i + 1) % steps_data.length)) ∧
      sc.arrows[steps_data.length - 1]? = some (steps_data.length - 1, 0) := by
  have hne : ¬steps_data.isEmpty := by
    cases steps_data with
    | nil => simp at hcount
    | cons a l => simp
  refine ⟨_, create_circular_flow_ok steps_data hne, ?_, ?_, ?_, ?_⟩
  · simp [List.enum_length]
  · intro i hi
    rw [List.getElem?_map, List.getElem?_enum, List.getElem?_eq_getElem hi]
    simp [List.getD_eq_getElem?_getD, List.getElem?_eq_getElem hi]
  · intro i hi
    rw [List.getElem?_map, List.getElem?_enum, List.getElem?_eq_getElem hi]
    rfl
  · have hlt : steps_data.length - 1 < steps_data.length := by omega
    rw [List.getElem?_map, List.getElem?_enum, List.getElem?_eq_getElem hlt]
    show some (steps_data.length - 1,
      (steps_data.length - 1 + 1) % steps_data.length) = _
    rw [Nat.sub_add_cancel hcount, Nat.mod_self]

/-- Witness for C3 at the five-stage request of end-to-end example 2. -/
theorem circular_flow_layout_witness :
    1 ≤ ([⟨some "A", none⟩, ⟨some "B", none⟩, ⟨some "C", none⟩,
      ⟨some "D", none⟩, ⟨some "E", none⟩] : List PFStepD).length ∧
    (∃ sc, create_circular_flow [⟨some "A", none⟩, ⟨some "B", none⟩,
        ⟨some "C", none⟩, ⟨some "D", none⟩, ⟨some "E", none⟩] =
        Except.ok sc ∧
      sc.elements.length = ([⟨some "A", none⟩, ⟨some "B", none⟩,
        ⟨some "C", none⟩, ⟨some "D", none⟩,
        ⟨some "E", none⟩] : List PFStepD).length ∧
      (∀ i, i < ([⟨some "A", none⟩, ⟨some "B", none⟩, ⟨some "C", none⟩,
          ⟨some "D", none⟩, ⟨some "E", none⟩] : List PFStepD).length →
        sc.elements[i]? = some (i,
          pf_step_name (([⟨some "A", none⟩, ⟨some "B", none⟩,
            ⟨some "C", none⟩, ⟨some "D", none⟩,
            ⟨some "E", none⟩] : List PFStepD).getD i default) i,
          (i : ℚ) * 2 / (([⟨some "A", none⟩, ⟨some "B", none⟩,
            ⟨some "C", none⟩, ⟨some "D", none⟩,
            ⟨some "E", none⟩] : List PFStepD).length : ℚ) - 1/2)) ∧
      (∀ i, i < ([⟨some "A", none⟩, ⟨some "B", none⟩, ⟨some "C", none⟩,
          ⟨some "D", none⟩, ⟨some "E", none⟩] : List PFStepD).length →
        sc.arrows[i]? = some (i, (i + 1) % ([⟨some "A", none⟩,
          ⟨some "B", none⟩, ⟨some "C", none⟩, ⟨some "D", none⟩,
          ⟨some "E", none⟩] : List PFStepD).length)) ∧
      sc.arrows[([⟨some "A", none⟩, ⟨some "B", none⟩, ⟨some "C", none⟩,
        ⟨some "D", none⟩, ⟨some "E", none⟩] : List PFStepD).length - 1]? =
        some (([⟨some "A", none⟩, ⟨some "B", none⟩, ⟨some "C", none⟩,
          ⟨some "D", none⟩, ⟨some "E", none⟩] : List PFStepD).length - 1,
          0)) :=
  ⟨by decide,
   circular_flow_layout [⟨some "A", none⟩, ⟨some "B", none⟩,
     ⟨some "C", none⟩, ⟨some "D", none⟩, ⟨some "E", none⟩] (by decide)⟩

/-- The slot offsets strictly increase with the slot number. -/
theorem stack_y_lt {j k : Nat} (h : j < k) : stack_y j < stack_y k := by
  unfold stack_y
  have hc : (j : ℚ) < (k : ℚ) := by exact_mod_cast h
  linarith

/-- One stack operation acts on the drawn values exactly as the LIFO
trace semantics acts on the plain values. -/
theorem stack_step_vals (cur : List StackElem) (op : OpD) :
    (stack_step cur op).map StackElem.val =
      lifo_step (cur.map StackElem.val) op := by
  unfold stack_step lifo_step
  by_cases hpush : op.type.getD "push" = "push"
  · simp [hpush]
  · by_cases hpop : op.type.getD "push" = "pop"
    · by_cases hcur : cur.isEmpty
      · have hnil : cur = [] := by simpa [List.isEmpty_iff] using hcur
        subst hnil
        simp [hpush, hpop]
      · simp [hpush, hpop, hcur, List.map_dropLast]
    · simp [hpush, hpop]

/-- One stack operation preserves the slot-offset invariant: every
surviving element group at list position `k` carries offset
`stack_y k`. -/
theorem stack_step_y (cur : List StackElem) (op : OpD)
    (hy : ∀ k e, cur[k]? = some e → e.y = stack_y k) :
    ∀ k e, (stack_step cur op)[k]? = some e → e.y = stack_y k := by
  intro k e he
  unfold stack_step at he
  by_cases hpush : op.type.getD "push" = "push"
  · rw [if_pos hpush, List.getElem?_append] at he
    by_cases hk : k < cur.length
    · rw [if_pos hk] at he
      exact hy k e he
    · rw [if_neg hk] at he
      cases hkl : k - cur.length with
      | zero =>
        rw [hkl] at he
        have hke : k = cur.length := by omega
        rw [List.getElem?_cons_zero] at he
        cases he
        rw [hke]
      | succ n =>
        rw [hkl, List.getElem?_cons_succ, List.getElem?_nil] at he
        cases he
  · rw [if_neg hpush] at he
    by_cases hpop : op.type.getD "push" = "pop" ∧ ¬cur.isEmpty
    · rw [if_pos hpop, List.getElem?_dropLast] at he
      by_cases hk : k < cur.length - 1
      · rw [if_pos hk] at he
        exact hy k e he
      · rw [if_neg hk] at he
        cases he
    · rw [if_neg hpop] at he
      exact hy k e he

/-- Trace lemma: running `perform_stack_operations` from any state
satisfying the slot-offset invariant matches the LIFO trace semantics
on values and keeps the invariant. -/
theorem perform_stack_operations_spec (ops : List OpD)
    (cur : List StackElem)
    (hy : ∀ k e, cur[k]? = some e → e.y = stack_y k) :
    ((perform_stack_operations cur ops).map StackElem.val =
      lifo_eval (cur.map StackElem.val) ops) ∧
    (∀ k e, (perform_stack_operations cur ops)[k]? = some e →
      e.y = stack_y k) := by
  induction ops generalizing cur with
  | nil => exact ⟨rfl, hy⟩
  | cons op rest ih =>
    have hstep : perform_stack_operations cur (op :: rest) =
        perform_stack_operations (stack_step cur op) rest := rfl
    have hlifo : lifo_eval (cur.map StackElem.val) (op :: rest) =
        lifo_eval (lifo_step (cur.map StackElem.val) op) rest := rfl
    rw [hstep, hlifo, ← stack_step_vals cur op]
    exact ih (stack_step cur op) (stack_step_y cur op hy)

/-- The initial stack groups carry exactly the input values. -/
theorem create_stack_elements_vals (data : List Int) :
    (create_stack_elements data).map StackElem.val = data := by
  unfold create_stack_elements
  rw [List.map_map]
  exact List.enum_map_snd data

/-- The initial stack groups satisfy the slot-offset invariant. -/
theorem create_stack_elements_y (data : List Int) :
    ∀ k e, (create_stack_elements data)[k]? = some e → e.y = stack_y k := by
  intro k e he
  unfold create_stack_elements at he
  rw [List.getElem?_map, List.getElem?_enum] at he
  cases hdk : data[k]? with
  | none =>
    rw [hdk] at he
    cases he
  | some v =>
    rw [hdk] at he
    cases he
    rfl

/-- C6: over any initial data and any operation trace, the drawn stack
carries exactly the LIFO-evaluated values, every surviving element sits
at its slot offset (so offsets strictly increase with insertion order
and a push lands one slot above the last surviving element), a pop on
an empty stack is a no-op, and the top of the final stack is the last
surviving value of the LIFO trace. -/
theorem stack_lifo_trace (data : List Int) (operations : List OpD) :
    ((perform_stack_operations (create_stack_elements data)
        operations).map StackElem.val = lifo_eval data operations) ∧
    (∀ k (hk : k < (perform_stack_operations (create_stack_elements data)
        operations).length),
      ((perform_stack_operations (create_stack_elements data)
        operations).get ⟨k, hk⟩).y = stack_y k) ∧
    (∀ j k (hj : j < (perform_stack_operations (create_stack_elements data)
        operations).length)
      (hk : k < (perform_stack_operations (create_stack_elements data)
        operations).length), j < k →
      ((perform_stack_operations (create_stack_elements data)
        operations).get ⟨j, hj⟩).y <
        ((perform_stack_operations (create_stack_elements data)
          operations).get ⟨k, hk⟩).y) ∧
    (∀ (v : Option Int) (rest : List OpD),
      perform_stack_operations []
        ({ type := some "pop", index := none, value := v } :: rest) =
        perform_stack_operations [] rest) ∧
    ((perform_stack_operations (create_stack_elements data)
        operations).getLast?.map StackElem.val =
      (lifo_eval data operations).getLast?) := by
  obtain ⟨hvals, hy⟩ := perform_stack_operations_spec operations
    (create_stack_elements data) (create_stack_elements_y data)
  rw [create_stack_elements_vals] at hvals
  have hget : ∀ k (hk : k < (perform_stack_operations
      (create_stack_elements data) operations).length),
      ((perform_stack_operations (create_stack_elements data)
        operations).get ⟨k, hk⟩).y = stack_y k := fun k hk =>
    hy k _ (List.getElem?_eq_getElem hk)
  refine ⟨hvals, hget, ?_, ?_, ?_⟩
  · intro j k hj hk hjk
    rw [hget j hj, hget k hk]
    exact stack_y_lt hjk
  · intro v rest
    rfl
  · rw [← hvals]
    exact (List.getLast?_map _ _).symm

/-- Witness for C6 at `data = [1, 2]` with a push of 7 and a pop. -/
theorem stack_lifo_trace_witness :
    (perform_stack_operations (create_stack_elements [1, 2])
      [{ type := some "push", index := none, value := some 7 },
       { type := some "pop", index := none, value := none }]).map
      StackElem.val =
      lifo_eval [1, 2]
        [{ type := some "push", index := none, value := some 7 },
         { type := some "pop", index := none, value := none }] ∧
    0 < (perform_stack_operations (create_stack_elements [1, 2])
      [{ type := some "push", index := none, value := some 7 },
       { type := some "pop", index := none, value := none }]).length ∧
    ((perform_stack_operations (create_stack_elements [1, 2])
      [{ type := some "push", index := none, value := some 7 },
       { type := some "pop", index := none, value := none }]).get
      ⟨0, by decide⟩).y = stack_y 0 :=
  ⟨(stack_lifo_trace [1, 2]
      [{ type := some "push", index := none, value := some 7 },
       { type := some "pop", index := none, value := none }]).1,
   by decide,
   (stack_lifo_trace [1, 2]
      [{ type := some "push", index := none, value := some 7 },
       { type := some "pop", index := none, value := none }]).2.1 0
     (by decide)⟩

